import Mathlib

set_option maxRecDepth 100000

/-!
Verification development for the Chapel runtime privatized-object registry
(`src/runtime/src/chpl-privatization.c`) and its reader TLS roster.

The registry is embedded shallowly at single-threaded fidelity:

* machine integers are modelled as `Int`/`Nat` with the C narrowing
  conversions written out (`toInt32`, `toSizeT`); in particular
  `int blockIdx = pid / CHPL_PRIVATIZATION_BLOCK_SIZE` narrows a 64-bit
  quotient into a 32-bit `int`, which the model keeps;
* out-of-bounds array accesses (the source performs no bounds checks in
  `chpl_getPrivatizedClass` / `chpl_clearPrivatizedClass`) are surfaced as
  `none` results (undefined behaviour);
* the `while (true)` retry loop of `chpl_newPrivatizedClass` is iterated with
  explicit fuel so that non-termination is observable;
* the writer's quiescence wait over the TLS roster is modelled as a relation
  over time-indexed status traces.
-/

/-- The compile-time constant `CHPL_PRIVATIZATION_BLOCK_SIZE` (= 1024). -/
def CHPL_PRIVATIZATION_BLOCK_SIZE : Nat := 1024

/-- Narrowing of a mathematical integer into a 32-bit signed `int`:
two's-complement wrap, the (implementation-defined) behaviour of the
compilers targeted by the runtime. -/
def toInt32 (x : Int) : Int := (x + 2 ^ 31) % 2 ^ 32 - 2 ^ 31

/-- Conversion of a signed value to `size_t` (unsigned 64-bit), as performed
by C's usual arithmetic conversions when an `int` meets a `size_t`. -/
def toSizeT (x : Int) : Nat := (x % 2 ^ 64).toNat

/-- The computation `int blockIdx = pid / CHPL_PRIVATIZATION_BLOCK_SIZE;`:
C division on `int64_t` truncates toward zero (`Int.tdiv`), and the result
is narrowed into the 32-bit `int blockIdx`. -/
def blockIdxOf (pid : Int) : Int :=
  toInt32 (pid.tdiv (CHPL_PRIVATIZATION_BLOCK_SIZE : Int))

/-- The computation `int idx = pid % CHPL_PRIVATIZATION_BLOCK_SIZE;`:
C `%` is the truncated remainder (`Int.tmod`), narrowed into `int` (the
remainder always fits, so the narrowing is the identity here). -/
def slotIdxOf (pid : Int) : Int :=
  toInt32 (pid.tmod (CHPL_PRIVATIZATION_BLOCK_SIZE : Int))

/-- One block (`chpl_priv_block_t`, a `void **`): an array of
`CHPL_PRIVATIZATION_BLOCK_SIZE` object-pointer slots. `none` models the null
pointer, `some v` a published object pointer. -/
abbrev chpl_priv_block_t := List (Option Nat)

/-- The function `chpl_priv_block_create`: a fresh zero-initialised block. -/
def chpl_priv_block_create : chpl_priv_block_t :=
  List.replicate CHPL_PRIVATIZATION_BLOCK_SIZE none

/-- The struct `chpl_priv_instance_t`: a variable array of blocks together
with its length field `len` (a `size_t`). -/
structure chpl_priv_instance_t where
  blocks : List chpl_priv_block_t
  len : Nat
deriving Repr, DecidableEq

/-- The registry's globals: the two entries of `chpl_priv_instances` and the
atomic `currentInstanceIdx` (`false` = instance 0, `true` = instance 1). -/
structure RegState where
  inst0 : chpl_priv_instance_t
  inst1 : chpl_priv_instance_t
  currentInstanceIdx : Bool
deriving Repr, DecidableEq

/-- The instance currently named by `currentInstanceIdx`. -/
def RegState.cur (s : RegState) : chpl_priv_instance_t :=
  if s.currentInstanceIdx then s.inst1 else s.inst0

/-- Overwriting the record of the current instance (used by the slot-store
paths, which write through the index obtained from `acquireRead`). -/
def RegState.setCur (s : RegState) (inst : chpl_priv_instance_t) : RegState :=
  if s.currentInstanceIdx then { s with inst1 := inst }
  else { s with inst0 := inst }

/-- The grow publication step: store the rebuilt instance into the slot
`newInstIdx = !getCurrentInstanceIdx()` and then atomically store
`newInstIdx` into `currentInstanceIdx`. -/
def RegState.growTo (s : RegState) (inst : chpl_priv_instance_t) : RegState :=
  if s.currentInstanceIdx then
    { s with inst0 := inst, currentInstanceIdx := false }
  else
    { s with inst1 := inst, currentInstanceIdx := true }

/-- The function `chpl_privatization_init`: instance 0 receives a single
zeroed block and `len = 1`; instance 1 is the zero-initialised C global,
i.e. `(NULL, 0)`; `currentInstanceIdx` is the zero-initialised 0. -/
def chpl_privatization_init : RegState :=
  { inst0 := { blocks := [chpl_priv_block_create], len := 1 }
  , inst1 := { blocks := [], len := 0 }
  , currentInstanceIdx := false }

/-- Indexing a C array at a (possibly negative) `int` index: `none` means
the access falls outside the allocation, i.e. undefined behaviour. -/
def cIndex {α : Type} (l : List α) (i : Int) : Option α :=
  if 0 ≤ i then l[i.toNat]? else none

/-- The read `blocks[blockIdx][idx]` for a given pid. The outer `none`
models an out-of-bounds access (the source has no bounds check on reads). -/
def readSlot (inst : chpl_priv_instance_t) (pid : Int) : Option (Option Nat) :=
  (cIndex inst.blocks (blockIdxOf pid)).bind fun b => cIndex b (slotIdxOf pid)

/-- The store `blocks[blockIdx][idx] = v` for a given pid; `none` models an
out-of-bounds store (undefined behaviour). -/
def writeSlot (inst : chpl_priv_instance_t) (pid : Int) (v : Option Nat) :
    Option chpl_priv_instance_t :=
  (cIndex inst.blocks (blockIdxOf pid)).bind fun b =>
    (cIndex b (slotIdxOf pid)).map fun _ =>
      { inst with
         blocks := inst.blocks.set (blockIdxOf pid).toNat
                     (b.set (slotIdxOf pid).toNat v) }

/-- The function `chpl_getPrivatizedClass`: read the slot of pid `i` in the
current instance (no bounds check in the source). -/
def chpl_getPrivatizedClass (s : RegState) (i : Int) : Option (Option Nat) :=
  readSlot s.cur i

/-- The function `chpl_clearPrivatizedClass`: store NULL into the slot of
pid `i` in the current instance (no bounds check in the source). -/
def chpl_clearPrivatizedClass (s : RegState) (i : Int) : Option RegState :=
  (writeSlot s.cur i none).map s.setCur

/-- The function `chpl_numPrivatizedClasses`: `len * BLOCK_SIZE` of the
current instance. -/
def chpl_numPrivatizedClasses (s : RegState) : Nat :=
  s.cur.len * CHPL_PRIVATIZATION_BLOCK_SIZE

/-- The instance record built inside the grow path of
`chpl_newPrivatizedClass`: a vector of `m` (= `blockIdx + 1`) block
references, whose front is the `memcpy` of the `len` references of the old
instance and whose tail holds fresh zeroed blocks. -/
def rawGrownInst (inst : chpl_priv_instance_t) (m : Nat) :
    chpl_priv_instance_t :=
  { blocks := inst.blocks.take inst.len ++
      List.replicate (m - inst.len) chpl_priv_block_create
  , len := m }

/-- Outcome of one iteration of the `while (true)` loop in
`chpl_newPrivatizedClass`: the iteration returned after storing, hit a
`continue`, or performed a fatal (out-of-bounds / failed-allocation) step. -/
inductive StepOut where
  | done (s : RegState)
  | retry (s : RegState)
  | fatal
deriving Repr, DecidableEq

/-- One iteration of the loop body of `chpl_newPrivatizedClass`, at C
integer fidelity, single-threaded (so `rcIdx` and the re-read `instIdx`
agree, and the quiescence wait over the roster finds no reader):

* `blockIdx >= chpl_priv_instances[rcIdx].len` compares `int` with `size_t`,
  so `blockIdx` is converted to `size_t` first;
* the `int` sum `blockIdx + 1` overflows at `blockIdx = INT_MAX`
  (undefined behaviour; this model adopts the same two's-complement wrap
  convention as the conversions, under which the sum wraps to `INT_MIN`);
* `int deltaBlocks = (blockIdx + 1) - len` is then computed in `size_t`
  and narrowed back into `int` — note
  `toInt32 (toInt32 (blockIdx + 1) - len) = toInt32 (blockIdx + 1 - len)`,
  so the wrap of the sum does not change `deltaBlocks`; `deltaBlocks <= 0`
  releases the write lock and retries with the state unmodified;
* otherwise a vector of `blockIdx + 1` block references is allocated, the
  old instance's references are copied into its front (references, not
  block contents), fresh zeroed blocks fill indices `len .. blockIdx`, the
  rebuilt instance is stored in the other slot and published by the index
  swap, and the iteration retries. A negative `blockIdx`, or a wrapped
  (negative) `blockIdx + 1` when `blockIdx = INT_MAX`, makes the `size_t`
  allocation count astronomical (allocation failure is fatal to the
  process), and `blockIdx + 1 < len` would make the copy overrun the new
  vector: all three are fatal;
* on the fast path the pointer is stored into the slot and the call
  returns. -/
def newPrivStep (v : Nat) (pid : Int) (s : RegState) : StepOut :=
  let blockIdx := blockIdxOf pid
  if s.cur.len ≤ toSizeT blockIdx then
    let deltaBlocks := toInt32 (blockIdx + 1 - (s.cur.len : Int))
    if deltaBlocks ≤ 0 then
      StepOut.retry s
    else if blockIdx < 0 ∨ 2 ^ 31 ≤ blockIdx + 1 ∨
        blockIdx + 1 < (s.cur.len : Int) then
      StepOut.fatal
    else
      StepOut.retry (s.growTo (rawGrownInst s.cur (blockIdx + 1).toNat))
  else
    match writeSlot s.cur pid (some v) with
    | none => StepOut.fatal
    | some inst' => StepOut.done (s.setCur inst')

/-- Outcome of running the retry loop of `chpl_newPrivatizedClass` with a
given amount of fuel: `spin` means the loop was still running when the fuel
ran out. -/
inductive RunOut where
  | ok (s : RegState)
  | fatal
  | spin
deriving Repr, DecidableEq

/-- The function `chpl_newPrivatizedClass` (single-threaded): iterate
`newPrivStep` until the store succeeds, with explicit fuel making
non-termination of the `while (true)` loop observable. -/
def chpl_newPrivatizedClass (v : Nat) (pid : Int) : Nat → RegState → RunOut
  | 0, _ => RunOut.spin
  | fuel + 1, s =>
    match newPrivStep v pid s with
    | StepOut.done s' => RunOut.ok s'
    | StepOut.retry s' => chpl_newPrivatizedClass v pid fuel s'
    | StepOut.fatal => RunOut.fatal

/-- A call into the registry's public API (pointer values are `Nat`). -/
inductive PrivOp where
  | publish (v : Nat) (pid : Int)
  | clear (pid : Int)
  | get (pid : Int)
  | capacity
deriving Repr, DecidableEq

/-- Normal completion of the retry loop, as an optional state. -/
def okState : RunOut → Option RegState
  | RunOut.ok s => some s
  | RunOut.fatal => none
  | RunOut.spin => none

/-- Execute one API call, single-threaded. A publish is given fuel 2: one
grow iteration plus the storing iteration, which is all a single-threaded
publish can need. `none` means the call did not complete normally (undefined
behaviour or a spinning retry loop). -/
def runOp (s : RegState) : PrivOp → Option RegState
  | PrivOp.publish v pid => okState (chpl_newPrivatizedClass v pid 2 s)
  | PrivOp.clear pid => chpl_clearPrivatizedClass s pid
  | PrivOp.get pid => (chpl_getPrivatizedClass s pid).map fun _ => s
  | PrivOp.capacity => some s

/-- Execute a sequence of API calls, single-threaded. -/
def runOps : RegState → List PrivOp → Option RegState
  | s, [] => some s
  | s, op :: ops => (runOp s op).bind fun s' => runOps s' ops

/-- Well-formedness of an instance record: the length field matches the
allocated vector and every block has the full block size. -/
def WF (inst : chpl_priv_instance_t) : Prop :=
  inst.blocks.length = inst.len ∧
  ∀ b ∈ inst.blocks, b.length = CHPL_PRIVATIZATION_BLOCK_SIZE

instance (inst : chpl_priv_instance_t) : Decidable (WF inst) := by
  unfold WF; exact inferInstance

/-- Invariant of reachable registry states: the current instance is
well-formed, holds at least the one block installed by `init`, and its
length was produced by `init` or by a grow (hence is at most `2 ^ 31`). -/
def RegInv (s : RegState) : Prop :=
  WF s.cur ∧ 1 ≤ s.cur.len ∧ s.cur.len ≤ 2 ^ 31

instance (s : RegState) : Decidable (RegInv s) := by
  unfold RegInv; exact inferInstance

/-- The struct `tls_node_t` of the reader TLS roster: the `in_use` flag and
the `uint8_t status` as a value in `0 .. 255` (storing `-1` yields 255). -/
structure tls_node_t where
  in_use : Bool
  status : Nat
deriving Repr, DecidableEq

/-- Uncontended `__sync_bool_compare_and_swap(&curr->in_use, false, true)`:
it succeeds exactly when the flag is currently `false`, returning the
success bit and the updated node. -/
def cas_in_use (n : tls_node_t) : Bool × tls_node_t :=
  if n.in_use then (false, n) else (true, { n with in_use := true })

/-- The roster walk of `init_tls` (uncontended): returns the updated roster
and the index of the node the walk adopted via `pthread_setspecific`, if
any. The walk mirrors
`if (curr->in_use || __sync_bool_compare_and_swap(&curr->in_use, false, true)) continue;`
so a node is adopted only when that short-circuit condition is false, i.e.
only when the compare-and-swap FAILS. -/
def init_tls_walk : List tls_node_t → List tls_node_t × Option Nat
  | [] => ([], none)
  | n :: rest =>
    if n.in_use then
      let r := init_tls_walk rest
      (n :: r.1, r.2.map (· + 1))
    else
      let c := cas_in_use n
      if c.1 then
        let r := init_tls_walk rest
        (c.2 :: r.1, r.2.map (· + 1))
      else
        (c.2 :: rest, some 0)

/-- Result of `init_tls`: the roster after the call, the index (in that
roster) of the node bound to the calling thread, and whether a fresh node
was allocated. -/
structure init_tls_result where
  roster : List tls_node_t
  adopted : Nat
  allocated : Bool
deriving Repr, DecidableEq

/-- The function `init_tls`, single-threaded: walk the roster; if the walk
adopted no node, allocate a fresh one with `chpl_calloc` (zeroed, so
`in_use = false`), set only `status = -1` (255 as `uint8_t`), splice it at
the head (the head compare-and-swap succeeds uncontended) and bind it. -/
def init_tls (roster : List tls_node_t) : init_tls_result :=
  match init_tls_walk roster with
  | (r, some i) => { roster := r, adopted := i, allocated := false }
  | (r, none) =>
    { roster := { in_use := false, status := 255 } :: r
    , adopted := 0
    , allocated := true }

/-- The spin `while (curr->status == instIdx) chpl_task_yield();` over a
time-indexed status trace `f`: `SpinExits f old t u` holds when the spin
entered at time `t` exits at time `u`, i.e. `u` is the first observation
from `t` on with `f u ≠ old`. -/
inductive SpinExits (f : Nat → Nat) (old : Nat) : Nat → Nat → Prop
  | exit {t : Nat} : f t ≠ old → SpinExits f old t t
  | wait {t u : Nat} : f t = old → SpinExits f old (t + 1) u →
      SpinExits f old t u

/-- The writer's quiescence scan `for` loop over `tls_list`: spin on each
roster node in turn; `ScanExits old fs t w` holds when the scan entered at
time `t` finishes at time `w`. -/
inductive ScanExits (old : Nat) : List (Nat → Nat) → Nat → Nat → Prop
  | nil {t : Nat} : ScanExits old [] t t
  | cons {f : Nat → Nat} {fs : List (Nat → Nat)} {t u w : Nat} :
      SpinExits f old t u → ScanExits old fs (u + 1) w →
      ScanExits old (f :: fs) t w

/-- The free `chpl_mem_free(chpl_priv_instances[instIdx].blocks, 0, 0)` is
the step after the quiescence scan: `WriterFrees old fs tf` holds when the
writer frees the old blocks vector at time `tf`, which requires the scan
over the whole roster to have completed first. -/
inductive WriterFrees (old : Nat) (fs : List (Nat → Nat)) : Nat → Prop
  | mk {T : Nat} : ScanExits old fs 0 T → WriterFrees old fs (T + 1)

/-- The instance built by the grow path: the old block references followed
by fresh zeroed blocks, with the new length `m` (= `blockIdx + 1`). -/
def grownInst (inst : chpl_priv_instance_t) (m : Nat) : chpl_priv_instance_t :=
  { blocks := inst.blocks ++
      List.replicate (m - inst.len) chpl_priv_block_create
  , len := m }

/-- Pids for which the `int` narrowing of `blockIdx` is the identity:
non-negative and below `2 ^ 41` (so `pid / 1024 < 2 ^ 31`). -/
def sanePid (pid : Int) : Prop := 0 ≤ pid ∧ pid < 2 ^ 41

instance (pid : Int) : Decidable (sanePid pid) := by
  unfold sanePid; exact inferInstance

/-- An API call whose pid (if any) is in the exactly-representable range. -/
def PrivOp.sane : PrivOp → Prop
  | PrivOp.publish _ pid => sanePid pid
  | PrivOp.clear pid => sanePid pid
  | PrivOp.get pid => sanePid pid
  | PrivOp.capacity => True

instance (op : PrivOp) : Decidable op.sane := by
  cases op <;> unfold PrivOp.sane <;> exact inferInstance

/-- Does the call publish a value at pid `p`? -/
def PrivOp.publishesAt (op : PrivOp) (p : Int) : Prop :=
  match op with
  | PrivOp.publish _ pid => pid = p
  | _ => False

instance (op : PrivOp) (p : Int) : Decidable (op.publishesAt p) := by
  cases op <;> unfold PrivOp.publishesAt <;> exact inferInstance

/-- The slot of pid `p` holds null, or is not yet allocated (reading it is
out of bounds). This is the state of a pid that has never been published. -/
def unpublishedSlot (s : RegState) (p : Int) : Prop :=
  chpl_getPrivatizedClass s p = some none ∨ chpl_getPrivatizedClass s p = none

instance (s : RegState) (p : Int) : Decidable (unpublishedSlot s p) := by
  unfold unpublishedSlot; exact inferInstance

/-- Modelled from the spec's words (data model): the exact decomposition
`blockIdx = pid / BLOCK_SIZE` of a signed 64-bit pid, with no narrowing of
the quotient into a 32-bit `int`. Used to compare the spec's decomposition
against the code's `blockIdxOf`. -/
def specBlockIdx (pid : Int) : Int :=
  pid.tdiv (CHPL_PRIVATIZATION_BLOCK_SIZE : Int)

/-- Modelled from the spec's words (data model): the exact decomposition
`slotIdx = pid % BLOCK_SIZE`, with no narrowing. -/
def specSlotIdx (pid : Int) : Int :=
  pid.tmod (CHPL_PRIVATIZATION_BLOCK_SIZE : Int)

/-! ### Arithmetic facts about the C narrowing conversions -/

lemma toInt32_of_bounds {x : Int} (h1 : -2 ^ 31 ≤ x) (h2 : x < 2 ^ 31) :
    toInt32 x = x := by
  unfold toInt32; omega

lemma toInt32_lb (x : Int) : -2 ^ 31 ≤ toInt32 x := by
  unfold toInt32; omega

lemma toInt32_ub (x : Int) : toInt32 x < 2 ^ 31 := by
  unfold toInt32; omega

lemma toSizeT_of_nonneg {x : Int} (h1 : 0 ≤ x) (h2 : x < 2 ^ 64) :
    toSizeT x = x.toNat := by
  unfold toSizeT; omega

lemma blockIdxOf_sane {pid : Int} (h0 : 0 ≤ pid) (h1 : pid < 2 ^ 41) :
    blockIdxOf pid = pid / 1024 := by
  unfold blockIdxOf CHPL_PRIVATIZATION_BLOCK_SIZE
  rw [show ((1024 : Nat) : Int) = 1024 by norm_num,
    Int.tdiv_eq_ediv h0 (by norm_num)]
  exact toInt32_of_bounds (by omega) (by omega)

lemma slotIdxOf_sane {pid : Int} (h0 : 0 ≤ pid) :
    slotIdxOf pid = pid % 1024 := by
  unfold slotIdxOf CHPL_PRIVATIZATION_BLOCK_SIZE
  rw [show ((1024 : Nat) : Int) = 1024 by norm_num,
    Int.tmod_eq_emod h0 (by norm_num)]
  exact toInt32_of_bounds (by omega) (by omega)

lemma toSizeT_blockIdxOf_sane {pid : Int} (h0 : 0 ≤ pid) (h1 : pid < 2 ^ 41) :
    toSizeT (blockIdxOf pid) = (pid / 1024).toNat := by
  rw [blockIdxOf_sane h0 h1]
  exact toSizeT_of_nonneg (by omega) (by omega)

/-- Distinct pids in the exactly-representable range address distinct
slots. -/
lemma sane_decomp_ne {p q : Int} (hp0 : 0 ≤ p) (hp1 : p < 2 ^ 41)
    (hq0 : 0 ≤ q) (hq1 : q < 2 ^ 41) (hne : p ≠ q) :
    blockIdxOf p ≠ blockIdxOf q ∨ slotIdxOf p ≠ slotIdxOf q := by
  rw [blockIdxOf_sane hp0 hp1, blockIdxOf_sane hq0 hq1,
    slotIdxOf_sane hp0, slotIdxOf_sane hq0]
  by_contra h
  push_neg at h
  exact hne (by omega)

/-! ### Slot access lemmas -/

lemma cIndex_of_nonneg {α : Type} (l : List α) {i : Int} (h : 0 ≤ i) :
    cIndex l i = l[i.toNat]? := by
  unfold cIndex; simp [h]

lemma cIndex_of_neg {α : Type} (l : List α) {i : Int} (h : i < 0) :
    cIndex l i = none := by
  unfold cIndex; simp [show ¬(0 ≤ i) by omega]

/-- Unfolded success form of `writeSlot`. -/
lemma writeSlot_some_iff {inst : chpl_priv_instance_t} {pid : Int}
    {v : Option Nat} {inst' : chpl_priv_instance_t} :
    writeSlot inst pid v = some inst' ↔
      ∃ b, cIndex inst.blocks (blockIdxOf pid) = some b ∧
        (∃ w, cIndex b (slotIdxOf pid) = some w) ∧
        inst'.blocks = inst.blocks.set (blockIdxOf pid).toNat
                         (b.set (slotIdxOf pid).toNat v) ∧
        inst'.len = inst.len := by
  unfold writeSlot
  rw [Option.bind_eq_some]
  constructor
  · rintro ⟨b, hb, hmap⟩
    rw [Option.map_eq_some'] at hmap
    rcases hmap with ⟨w, hw, heq⟩
    subst heq
    exact ⟨b, hb, ⟨w, hw⟩, rfl, rfl⟩
  · rintro ⟨b, hb, ⟨w, hw⟩, hblocks, hlen⟩
    refine ⟨b, hb, ?_⟩
    rw [Option.map_eq_some']
    refine ⟨w, hw, ?_⟩
    cases inst'
    simp only at hblocks hlen
    simp [hblocks, hlen]

lemma writeSlot_len {inst inst' : chpl_priv_instance_t} {pid : Int}
    {v : Option Nat} (h : writeSlot inst pid v = some inst') :
    inst'.len = inst.len :=
  (writeSlot_some_iff.mp h).choose_spec.2.2.2

/-- Reading back the slot just written. -/
lemma readSlot_writeSlot_self {inst inst' : chpl_priv_instance_t} {pid : Int}
    {v : Option Nat} (h : writeSlot inst pid v = some inst') :
    readSlot inst' pid = some v := by
  rcases writeSlot_some_iff.mp h with ⟨b, hb, ⟨w, hs⟩, hblocks, hlen⟩
  have hbi : 0 ≤ blockIdxOf pid := by
    by_contra hneg
    rw [cIndex_of_neg inst.blocks (by omega)] at hb
    exact absurd hb (by simp)
  have hsi : 0 ≤ slotIdxOf pid := by
    by_contra hneg
    rw [cIndex_of_neg b (by omega)] at hs
    exact absurd hs (by simp)
  rw [cIndex_of_nonneg _ hbi] at hb
  rw [cIndex_of_nonneg _ hsi] at hs
  have hblen' : (blockIdxOf pid).toNat < inst.blocks.length := by
    rcases List.getElem?_eq_some.mp hb with ⟨hlt, -⟩
    exact hlt
  have hslen : (slotIdxOf pid).toNat < b.length := by
    rcases List.getElem?_eq_some.mp hs with ⟨hlt, -⟩
    exact hlt
  unfold readSlot
  rw [cIndex_of_nonneg _ hbi, hblocks,
    List.getElem?_set_self (by simpa using hblen'), Option.some_bind,
    cIndex_of_nonneg _ hsi, List.getElem?_set_self (by simpa using hslen)]

/-- A store leaves every other slot's read unchanged. -/
lemma readSlot_writeSlot_other {inst inst' : chpl_priv_instance_t}
    {pid : Int} {v : Option Nat} (h : writeSlot inst pid v = some inst')
    {pid' : Int}
    (hne : blockIdxOf pid' ≠ blockIdxOf pid ∨ slotIdxOf pid' ≠ slotIdxOf pid) :
    readSlot inst' pid' = readSlot inst pid' := by
  rcases writeSlot_some_iff.mp h with ⟨b, hb, ⟨w, hs⟩, hblocks, hlen⟩
  have hbi : 0 ≤ blockIdxOf pid := by
    by_contra hneg
    rw [cIndex_of_neg inst.blocks (by omega)] at hb
    exact absurd hb (by simp)
  have hsi : 0 ≤ slotIdxOf pid := by
    by_contra hneg
    rw [cIndex_of_neg b (by omega)] at hs
    exact absurd hs (by simp)
  rw [cIndex_of_nonneg _ hbi] at hb
  rw [cIndex_of_nonneg _ hsi] at hs
  unfold readSlot
  rw [hblocks]
  rcases lt_or_ge (blockIdxOf pid') 0 with hneg | hpos
  · rw [cIndex_of_neg _ hneg, cIndex_of_neg _ hneg]
  rw [cIndex_of_nonneg _ hpos, cIndex_of_nonneg _ hpos]
  rcases eq_or_ne (blockIdxOf pid') (blockIdxOf pid) with heq | hne'
  · have hslot : slotIdxOf pid' ≠ slotIdxOf pid := by
      rcases hne with h' | h'
      · exact absurd heq h'
      · exact h'
    rw [heq, List.getElem?_set_self
        (by rcases List.getElem?_eq_some.mp hb with ⟨hlt, -⟩; exact hlt), hb,
      Option.some_bind, Option.some_bind]
    rcases lt_or_ge (slotIdxOf pid') 0 with hneg2 | hpos2
    · rw [cIndex_of_neg _ hneg2, cIndex_of_neg _ hneg2]
    rw [cIndex_of_nonneg _ hpos2, cIndex_of_nonneg _ hpos2,
      List.getElem?_set_ne]
    omega
  · rw [List.getElem?_set_ne]
    omega

/-! ### Well-formedness and in-bounds access -/

lemma take_len_of_WF {inst : chpl_priv_instance_t} (h : WF inst) :
    inst.blocks.take inst.len = inst.blocks := by
  rw [← h.1, List.take_length]

lemma readSlot_isSome {inst : chpl_priv_instance_t} (hWF : WF inst)
    {pid : Int} (hbi : 0 ≤ blockIdxOf pid)
    (hlt : (blockIdxOf pid).toNat < inst.len)
    (hsi : 0 ≤ slotIdxOf pid)
    (hslt : (slotIdxOf pid).toNat < CHPL_PRIVATIZATION_BLOCK_SIZE) :
    ∃ w, readSlot inst pid = some w := by
  have hblen : (blockIdxOf pid).toNat < inst.blocks.length := by
    rw [hWF.1]; exact hlt
  obtain ⟨b, hb⟩ : ∃ b, inst.blocks[(blockIdxOf pid).toNat]? = some b :=
    ⟨_, List.getElem?_eq_getElem hblen⟩
  have hbmem : b ∈ inst.blocks := by
    rcases List.getElem?_eq_some.mp hb with ⟨hlt', hg⟩
    rw [← hg]
    exact inst.blocks.getElem_mem hlt'
  have hbl : (slotIdxOf pid).toNat < b.length := by
    rw [hWF.2 _ hbmem]
    exact hslt
  obtain ⟨w, hw⟩ : ∃ w, b[(slotIdxOf pid).toNat]? = some w :=
    ⟨_, List.getElem?_eq_getElem hbl⟩
  refine ⟨w, ?_⟩
  unfold readSlot
  rw [cIndex_of_nonneg _ hbi, hb, Option.some_bind, cIndex_of_nonneg _ hsi, hw]

lemma writeSlot_isSome {inst : chpl_priv_instance_t} (hWF : WF inst)
    {pid : Int} (hbi : 0 ≤ blockIdxOf pid)
    (hlt : (blockIdxOf pid).toNat < inst.len)
    (hsi : 0 ≤ slotIdxOf pid)
    (hslt : (slotIdxOf pid).toNat < CHPL_PRIVATIZATION_BLOCK_SIZE)
    (v : Option Nat) :
    ∃ inst', writeSlot inst pid v = some inst' := by
  have hblen : (blockIdxOf pid).toNat < inst.blocks.length := by
    rw [hWF.1]; exact hlt
  have hb' : cIndex inst.blocks (blockIdxOf pid) =
      some inst.blocks[(blockIdxOf pid).toNat] := by
    rw [cIndex_of_nonneg _ hbi, List.getElem?_eq_getElem hblen]
  have hslen : (slotIdxOf pid).toNat <
      inst.blocks[(blockIdxOf pid).toNat].length := by
    rw [hWF.2 _ (inst.blocks.getElem_mem hblen)]
    exact hslt
  refine ⟨{ blocks := inst.blocks.set (blockIdxOf pid).toNat
              (inst.blocks[(blockIdxOf pid).toNat].set (slotIdxOf pid).toNat v)
          , len := inst.len },
    writeSlot_some_iff.mpr ⟨_, hb', ?_, rfl, rfl⟩⟩
  rw [cIndex_of_nonneg _ hsi]
  exact ⟨_, List.getElem?_eq_getElem hslen⟩

lemma WF_writeSlot {inst inst' : chpl_priv_instance_t} (hWF : WF inst)
    {pid : Int} {v : Option Nat} (h : writeSlot inst pid v = some inst') :
    WF inst' := by
  rcases writeSlot_some_iff.mp h with ⟨b, hb, ⟨w, hs⟩, hblocks, hlen⟩
  have hbi : 0 ≤ blockIdxOf pid := by
    by_contra hneg
    rw [cIndex_of_neg inst.blocks (by omega)] at hb
    exact absurd hb (by simp)
  rw [cIndex_of_nonneg _ hbi] at hb
  have hbmem : b ∈ inst.blocks := by
    rcases List.getElem?_eq_some.mp hb with ⟨hlt, hg⟩
    rw [← hg]
    exact inst.blocks.getElem_mem hlt
  constructor
  · rw [hblocks, List.length_set, hWF.1, hlen]
  · intro b' hb'
    rw [hblocks] at hb'
    rcases List.mem_or_eq_of_mem_set hb' with hmem | heq
    · exact hWF.2 _ hmem
    · rw [heq, List.length_set]
      exact hWF.2 _ hbmem

/-! ### Reads against a grown instance -/

lemma readSlot_append_low {inst2 inst : chpl_priv_instance_t}
    {rest : List chpl_priv_block_t}
    (h : inst2.blocks = inst.blocks ++ rest) {pid : Int}
    (hbi : 0 ≤ blockIdxOf pid)
    (hlow : (blockIdxOf pid).toNat < inst.blocks.length) :
    readSlot inst2 pid = readSlot inst pid := by
  unfold readSlot
  rw [h, cIndex_of_nonneg _ hbi, cIndex_of_nonneg _ hbi,
    List.getElem?_append_left hlow]

lemma readSlot_append_fresh {inst2 inst : chpl_priv_instance_t} {k : Nat}
    (h : inst2.blocks =
      inst.blocks ++ List.replicate k chpl_priv_block_create) {pid : Int}
    (hbi : 0 ≤ blockIdxOf pid)
    (hge : inst.blocks.length ≤ (blockIdxOf pid).toNat)
    (hlt : (blockIdxOf pid).toNat < inst.blocks.length + k)
    (hsi : 0 ≤ slotIdxOf pid)
    (hslt : (slotIdxOf pid).toNat < CHPL_PRIVATIZATION_BLOCK_SIZE) :
    readSlot inst2 pid = some none := by
  unfold readSlot
  rw [h, cIndex_of_nonneg _ hbi, List.getElem?_append_right hge,
    List.getElem?_replicate, if_pos (by omega), Option.some_bind,
    cIndex_of_nonneg _ hsi]
  unfold chpl_priv_block_create
  rw [List.getElem?_replicate, if_pos hslt]

lemma readSlot_oob {inst : chpl_priv_instance_t} {pid : Int}
    (hbi : 0 ≤ blockIdxOf pid)
    (hge : inst.blocks.length ≤ (blockIdxOf pid).toNat) :
    readSlot inst pid = none := by
  unfold readSlot
  rw [cIndex_of_nonneg _ hbi, List.getElem?_eq_none hge, Option.none_bind]

/-! ### State plumbing -/

lemma RegState.growTo_cur (s : RegState) (inst : chpl_priv_instance_t) :
    (s.growTo inst).cur = inst := by
  cases h : s.currentInstanceIdx <;>
    simp [RegState.growTo, RegState.cur, h]

lemma RegState.setCur_cur (s : RegState) (inst : chpl_priv_instance_t) :
    (s.setCur inst).cur = inst := by
  cases h : s.currentInstanceIdx <;>
    simp [RegState.setCur, RegState.cur, h]

/-! ### Characterising one step of `chpl_newPrivatizedClass` -/

lemma newPrivStep_store {v : Nat} {pid : Int} {s : RegState}
    {inst' : chpl_priv_instance_t}
    (hfast : toSizeT (blockIdxOf pid) < s.cur.len)
    (hw : writeSlot s.cur pid (some v) = some inst') :
    newPrivStep v pid s = StepOut.done (s.setCur inst') := by
  simp only [newPrivStep]
  rw [if_neg (by omega), hw]

lemma newPrivStep_grow {v : Nat} {pid : Int} {s : RegState}
    (hInv : RegInv s) (h0 : 0 ≤ pid) (h1 : pid < 2 ^ 41 - 1024)
    (hslow : s.cur.len ≤ toSizeT (blockIdxOf pid)) :
    newPrivStep v pid s =
      StepOut.retry (s.growTo (grownInst s.cur ((pid / 1024).toNat + 1))) := by
  obtain ⟨hWF, hge1, hle⟩ := hInv
  have hb := blockIdxOf_sane h0 (by omega)
  have hts := toSizeT_blockIdxOf_sane h0 (by omega)
  rw [hts] at hslow
  have hq0 : 0 ≤ pid / 1024 := by omega
  have hq1 : pid / 1024 < 2 ^ 31 - 1 := by omega
  have hlenle : (s.cur.len : Int) ≤ pid / 1024 := by omega
  have hdelta : toInt32 (blockIdxOf pid + 1 - (s.cur.len : Int)) =
      pid / 1024 + 1 - s.cur.len := by
    rw [hb]
    exact toInt32_of_bounds (by omega) (by omega)
  simp only [newPrivStep]
  rw [if_pos (by rw [hts]; exact hslow), hdelta,
    if_neg (by omega), if_neg (by rw [hb]; omega)]
  have hcnt : (blockIdxOf pid + 1).toNat = (pid / 1024).toNat + 1 := by
    rw [hb]; omega
  rw [hcnt]
  unfold rawGrownInst grownInst
  rw [take_len_of_WF hWF]

lemma WF_grownInst {inst : chpl_priv_instance_t} (hWF : WF inst) {m : Nat}
    (hm : inst.len ≤ m) : WF (grownInst inst m) := by
  constructor
  · show (inst.blocks ++
      List.replicate (m - inst.len) chpl_priv_block_create).length = m
    rw [List.length_append, List.length_replicate, hWF.1]
    omega
  · intro b hb
    rcases List.mem_append.mp hb with hmem | hmem
    · exact hWF.2 _ hmem
    · rw [(List.mem_replicate.mp hmem).2]
      exact List.length_replicate _ _

lemma grownInst_len (inst : chpl_priv_instance_t) (m : Nat) :
    (grownInst inst m).len = m := rfl

/-! ### Running the retry loop -/

lemma loop_two_of_done {v : Nat} {pid : Int} {s s2 : RegState}
    (h1 : newPrivStep v pid s = StepOut.done s2) :
    chpl_newPrivatizedClass v pid 2 s = RunOut.ok s2 := by
  show (match newPrivStep v pid s with
    | StepOut.done s' => RunOut.ok s'
    | StepOut.retry s' => chpl_newPrivatizedClass v pid 1 s'
    | StepOut.fatal => RunOut.fatal) = RunOut.ok s2
  rw [h1]

lemma loop_two_of_retry_done {v : Nat} {pid : Int} {s s1 s2 : RegState}
    (h1 : newPrivStep v pid s = StepOut.retry s1)
    (h2 : newPrivStep v pid s1 = StepOut.done s2) :
    chpl_newPrivatizedClass v pid 2 s = RunOut.ok s2 := by
  show (match newPrivStep v pid s with
    | StepOut.done s' => RunOut.ok s'
    | StepOut.retry s' => chpl_newPrivatizedClass v pid 1 s'
    | StepOut.fatal => RunOut.fatal) = RunOut.ok s2
  rw [h1]
  show (match newPrivStep v pid s1 with
    | StepOut.done s' => RunOut.ok s'
    | StepOut.retry s' => chpl_newPrivatizedClass v pid 0 s'
    | StepOut.fatal => RunOut.fatal) = RunOut.ok s2
  rw [h2]

/-- Single-threaded characterisation of a completed publish in the
exactly-representable pid range: it returns within two loop iterations,
preserves the invariant, installs the value at its own pid, leaves every
other sane pid's readable value unchanged (except that slots newly covered
by the grow go from unallocated to null), and grows the length exactly when
the fast-path test failed. -/
lemma publish_ok (v : Nat) {pid : Int} {s : RegState}
    (hInv : RegInv s) (h0 : 0 ≤ pid) (h1 : pid < 2 ^ 41 - 1024) :
    ∃ s', chpl_newPrivatizedClass v pid 2 s = RunOut.ok s' ∧ RegInv s' ∧
      chpl_getPrivatizedClass s' pid = some (some v) ∧
      (∀ q : Int, 0 ≤ q → q < 2 ^ 41 → q ≠ pid →
        chpl_getPrivatizedClass s' q = chpl_getPrivatizedClass s q ∨
          (chpl_getPrivatizedClass s q = none ∧
            chpl_getPrivatizedClass s' q = some none)) ∧
      s.cur.len ≤ s'.cur.len ∧
      (s.cur.len ≤ toSizeT (blockIdxOf pid) →
        s'.cur.len = (pid / 1024).toNat + 1) ∧
      (toSizeT (blockIdxOf pid) < s.cur.len → s'.cur.len = s.cur.len) := by
  have hb := blockIdxOf_sane h0 (by omega)
  have hsl := slotIdxOf_sane h0
  have hts := toSizeT_blockIdxOf_sane h0 (by omega)
  have hbi : 0 ≤ blockIdxOf pid := by rw [hb]; omega
  have hsi : 0 ≤ slotIdxOf pid := by rw [hsl]; omega
  have hslt : (slotIdxOf pid).toNat < CHPL_PRIVATIZATION_BLOCK_SIZE := by
    rw [hsl]; unfold CHPL_PRIVATIZATION_BLOCK_SIZE; omega
  have hbn : (blockIdxOf pid).toNat = (pid / 1024).toNat := by rw [hb]
  rcases lt_or_ge (toSizeT (blockIdxOf pid)) s.cur.len with hfast | hslow
  · -- fast path: one storing iteration
    have hlt : (blockIdxOf pid).toNat < s.cur.len := by
      rw [hts] at hfast; omega
    obtain ⟨inst', hw⟩ := writeSlot_isSome hInv.1 hbi hlt hsi hslt (some v)
    have hrun := loop_two_of_done (newPrivStep_store hfast hw)
    refine ⟨s.setCur inst', hrun, ?_, ?_, ?_, ?_, ?_, ?_⟩
    · refine ⟨?_, ?_, ?_⟩ <;> rw [RegState.setCur_cur]
      · exact WF_writeSlot hInv.1 hw
      · rw [writeSlot_len hw]; exact hInv.2.1
      · rw [writeSlot_len hw]; exact hInv.2.2
    · show readSlot (s.setCur inst').cur pid = some (some v)
      rw [RegState.setCur_cur]
      exact readSlot_writeSlot_self hw
    · intro q hq0 hq1 hqne
      left
      show readSlot (s.setCur inst').cur q = readSlot s.cur q
      rw [RegState.setCur_cur]
      exact readSlot_writeSlot_other hw (sane_decomp_ne hq0 hq1 h0 (by omega) hqne)
    · rw [RegState.setCur_cur, writeSlot_len hw]
    · intro hsl'; omega
    · intro _; rw [RegState.setCur_cur, writeSlot_len hw]
  · -- slow path: one grow iteration then one storing iteration
    have hstep1 := @newPrivStep_grow v pid s hInv h0 h1 hslow
    have hlenle : s.cur.len ≤ (pid / 1024).toNat := by rw [hts] at hslow; omega
    have hGWF : WF (grownInst s.cur ((pid / 1024).toNat + 1)) :=
      WF_grownInst hInv.1 (by omega)
    have hcur1 : (s.growTo (grownInst s.cur ((pid / 1024).toNat + 1))).cur =
        grownInst s.cur ((pid / 1024).toNat + 1) := RegState.growTo_cur _ _
    have hInv1 : RegInv (s.growTo (grownInst s.cur ((pid / 1024).toNat + 1))) := by
      refine ⟨?_, ?_, ?_⟩ <;> rw [hcur1]
      · exact hGWF
      · rw [grownInst_len]; omega
      · rw [grownInst_len]; omega
    have hlt1 : (blockIdxOf pid).toNat <
        (s.growTo (grownInst s.cur ((pid / 1024).toNat + 1))).cur.len := by
      rw [hcur1, grownInst_len]; omega
    obtain ⟨inst', hw⟩ := writeSlot_isSome hInv1.1 hbi hlt1 hsi hslt (some v)
    have hfast1 : toSizeT (blockIdxOf pid) <
        (s.growTo (grownInst s.cur ((pid / 1024).toNat + 1))).cur.len := by
      rw [hts, hcur1, grownInst_len]; omega
    have hrun := loop_two_of_retry_done hstep1 (newPrivStep_store hfast1 hw)
    have hlen' : inst'.len = (pid / 1024).toNat + 1 := by
      rw [writeSlot_len hw, hcur1, grownInst_len]
    refine ⟨_, hrun, ?_, ?_, ?_, ?_, ?_, ?_⟩
    · refine ⟨?_, ?_, ?_⟩ <;> rw [RegState.setCur_cur]
      · exact WF_writeSlot hInv1.1 hw
      · rw [hlen']; omega
      · rw [hlen']; omega
    · show readSlot _ pid = some (some v)
      rw [RegState.setCur_cur]
      exact readSlot_writeSlot_self hw
    · intro q hq0 hq1 hqne
      have hbq := blockIdxOf_sane hq0 hq1
      have hsq := slotIdxOf_sane hq0
      have hbiq : 0 ≤ blockIdxOf q := by rw [hbq]; omega
      have hstore : readSlot ((s.growTo (grownInst s.cur
            ((pid / 1024).toNat + 1))).setCur inst').cur q =
          readSlot (grownInst s.cur ((pid / 1024).toNat + 1)) q := by
        rw [RegState.setCur_cur, ← hcur1]
        exact readSlot_writeSlot_other hw (sane_decomp_ne hq0 hq1 h0 (by omega) hqne)
      have hblkapp : (grownInst s.cur ((pid / 1024).toNat + 1)).blocks =
          s.cur.blocks ++ List.replicate
            ((pid / 1024).toNat + 1 - s.cur.len) chpl_priv_block_create := rfl
      rcases lt_or_ge (blockIdxOf q).toNat s.cur.blocks.length with hlow | hhigh
      · left
        show readSlot _ q = readSlot s.cur q
        rw [hstore]
        exact readSlot_append_low hblkapp hbiq hlow
      · have hbefore : readSlot s.cur q = none := readSlot_oob hbiq hhigh
        rcases lt_or_ge (blockIdxOf q).toNat ((pid / 1024).toNat + 1)
            with hin | hout
        · right
          refine ⟨hbefore, ?_⟩
          show readSlot _ q = some none
          rw [hstore]
          refine readSlot_append_fresh hblkapp hbiq hhigh ?_ ?_ ?_
          · rw [hInv.1.1]; omega
          · rw [hsq]; omega
          · rw [hsq]; unfold CHPL_PRIVATIZATION_BLOCK_SIZE; omega
        · left
          show readSlot _ q = readSlot s.cur q
          rw [hstore, hbefore]
          refine readSlot_oob hbiq ?_
          rw [hblkapp, List.length_append, List.length_replicate, hInv.1.1]
          omega
    · rw [RegState.setCur_cur, hlen']; omega
    · intro _; rw [RegState.setCur_cur, hlen']
    · intro hfast'; omega

/-! ### Shape of a step, without pid-range assumptions -/

lemma blockIdxOf_lt (pid : Int) : blockIdxOf pid < 2 ^ 31 :=
  toInt32_ub _

lemma blockIdxOf_ge (pid : Int) : -2 ^ 31 ≤ blockIdxOf pid :=
  toInt32_lb _

lemma newPrivStep_eq_retry_self {v : Nat} {pid : Int} {s : RegState}
    (hA : s.cur.len ≤ toSizeT (blockIdxOf pid))
    (hB : toInt32 (blockIdxOf pid + 1 - (s.cur.len : Int)) ≤ 0) :
    newPrivStep v pid s = StepOut.retry s := by
  simp only [newPrivStep]
  rw [if_pos hA, if_pos hB]

lemma newPrivStep_eq_fatal_grow {v : Nat} {pid : Int} {s : RegState}
    (hA : s.cur.len ≤ toSizeT (blockIdxOf pid))
    (hB : ¬ toInt32 (blockIdxOf pid + 1 - (s.cur.len : Int)) ≤ 0)
    (hC : blockIdxOf pid < 0 ∨ 2 ^ 31 ≤ blockIdxOf pid + 1 ∨
      blockIdxOf pid + 1 < (s.cur.len : Int)) :
    newPrivStep v pid s = StepOut.fatal := by
  simp only [newPrivStep]
  rw [if_pos hA, if_neg hB, if_pos hC]

lemma newPrivStep_eq_grow_raw {v : Nat} {pid : Int} {s : RegState}
    (hA : s.cur.len ≤ toSizeT (blockIdxOf pid))
    (hB : ¬ toInt32 (blockIdxOf pid + 1 - (s.cur.len : Int)) ≤ 0)
    (hC : ¬ (blockIdxOf pid < 0 ∨ 2 ^ 31 ≤ blockIdxOf pid + 1 ∨
      blockIdxOf pid + 1 < (s.cur.len : Int))) :
    newPrivStep v pid s =
      StepOut.retry (s.growTo (rawGrownInst s.cur (blockIdxOf pid + 1).toNat)) := by
  simp only [newPrivStep]
  rw [if_pos hA, if_neg hB, if_neg hC]

lemma newPrivStep_eq_fatal_oob {v : Nat} {pid : Int} {s : RegState}
    (hA : ¬ s.cur.len ≤ toSizeT (blockIdxOf pid))
    (hw : writeSlot s.cur pid (some v) = none) :
    newPrivStep v pid s = StepOut.fatal := by
  simp only [newPrivStep]
  rw [if_neg hA, hw]

/-- The current length never decreases across one non-fatal loop
iteration, with no assumption on the pid. -/
lemma newPrivStep_len_mono {v : Nat} {pid : Int} {s s' : RegState}
    (h : newPrivStep v pid s = StepOut.done s' ∨
      newPrivStep v pid s = StepOut.retry s') :
    s.cur.len ≤ s'.cur.len := by
  by_cases hA : s.cur.len ≤ toSizeT (blockIdxOf pid)
  · by_cases hB : toInt32 (blockIdxOf pid + 1 - (s.cur.len : Int)) ≤ 0
    · rw [newPrivStep_eq_retry_self hA hB] at h
      rcases h with h | h
      · exact StepOut.noConfusion h
      · injection h with h'
        rw [← h']
    · by_cases hC : blockIdxOf pid < 0 ∨ 2 ^ 31 ≤ blockIdxOf pid + 1 ∨
          blockIdxOf pid + 1 < (s.cur.len : Int)
      · rw [newPrivStep_eq_fatal_grow hA hB hC] at h
        rcases h with h | h <;> exact StepOut.noConfusion h
      · rw [newPrivStep_eq_grow_raw hA hB hC] at h
        rcases h with h | h
        · exact StepOut.noConfusion h
        · injection h with h'
          rw [← h', RegState.growTo_cur]
          show s.cur.len ≤ (rawGrownInst s.cur (blockIdxOf pid + 1).toNat).len
          have hge : 0 ≤ blockIdxOf pid := by
            push_neg at hC
            exact hC.1
          have hub := blockIdxOf_lt pid
          have hsz := toSizeT_of_nonneg hge (by omega)
          show s.cur.len ≤ (blockIdxOf pid + 1).toNat
          omega
  · rcases hw : writeSlot s.cur pid (some v) with _ | inst'
    · rw [newPrivStep_eq_fatal_oob hA hw] at h
      rcases h with h | h <;> exact StepOut.noConfusion h
    · rw [newPrivStep_store (by omega) hw] at h
      rcases h with h | h
      · injection h with h'
        rw [← h', RegState.setCur_cur, writeSlot_len hw]
      · exact StepOut.noConfusion h

/-- Length monotonicity through the whole retry loop, any fuel. -/
lemma chpl_newPrivatizedClass_len_mono {v : Nat} {pid : Int} :
    ∀ (fuel : Nat) (s s' : RegState),
      chpl_newPrivatizedClass v pid fuel s = RunOut.ok s' →
      s.cur.len ≤ s'.cur.len := by
  intro fuel
  induction fuel with
  | zero => intro s s' h; exact RunOut.noConfusion h
  | succ n ih =>
    intro s s' h
    rw [show chpl_newPrivatizedClass v pid (n + 1) s =
        (match newPrivStep v pid s with
          | StepOut.done t => RunOut.ok t
          | StepOut.retry t => chpl_newPrivatizedClass v pid n t
          | StepOut.fatal => RunOut.fatal) from rfl] at h
    rcases hstep : newPrivStep v pid s with t | t | _ <;> rw [hstep] at h
    · injection h with h'
      rw [← h']
      exact newPrivStep_len_mono (Or.inl hstep)
    · exact le_trans (newPrivStep_len_mono (Or.inr hstep)) (ih t s' h)
    · exact RunOut.noConfusion h

/-- Single-threaded characterisation of a completed clear of an in-bounds
pid in the exactly-representable range. -/
lemma clear_ok {s : RegState} {p : Int} (hInv : RegInv s) (hp0 : 0 ≤ p)
    (hp1 : p < 2 ^ 41) (hin : (p / 1024).toNat < s.cur.len) :
    ∃ s', chpl_clearPrivatizedClass s p = some s' ∧ RegInv s' ∧
      chpl_getPrivatizedClass s' p = some none ∧
      (∀ q : Int, 0 ≤ q → q < 2 ^ 41 → q ≠ p →
        chpl_getPrivatizedClass s' q = chpl_getPrivatizedClass s q) ∧
      s'.cur.len = s.cur.len := by
  have hb := blockIdxOf_sane hp0 hp1
  have hsl := slotIdxOf_sane hp0
  have hbi : 0 ≤ blockIdxOf p := by rw [hb]; omega
  have hsi : 0 ≤ slotIdxOf p := by rw [hsl]; omega
  have hslt : (slotIdxOf p).toNat < CHPL_PRIVATIZATION_BLOCK_SIZE := by
    rw [hsl]; unfold CHPL_PRIVATIZATION_BLOCK_SIZE; omega
  have hlt : (blockIdxOf p).toNat < s.cur.len := by rw [hb]; omega
  obtain ⟨inst', hw⟩ := writeSlot_isSome hInv.1 hbi hlt hsi hslt none
  refine ⟨s.setCur inst', ?_, ?_, ?_, ?_, ?_⟩
  · unfold chpl_clearPrivatizedClass
    rw [hw, Option.map_some']
  · refine ⟨?_, ?_, ?_⟩ <;> rw [RegState.setCur_cur]
    · exact WF_writeSlot hInv.1 hw
    · rw [writeSlot_len hw]; exact hInv.2.1
    · rw [writeSlot_len hw]; exact hInv.2.2
  · show readSlot (s.setCur inst').cur p = some none
    rw [RegState.setCur_cur]
    exact readSlot_writeSlot_self hw
  · intro q hq0 hq1 hqne
    show readSlot (s.setCur inst').cur q = readSlot s.cur q
    rw [RegState.setCur_cur]
    exact readSlot_writeSlot_other hw (sane_decomp_ne hq0 hq1 hp0 hp1 hqne)
  · rw [RegState.setCur_cur, writeSlot_len hw]

/-! ### Lifting to API calls and call sequences -/

/-! ### Inverting a completed publish, for any pid in the 32-bit-exact
range (the completion itself is NOT guaranteed there: near `INT_MAX`
blocks the grow is fatal) -/

lemma rawGrownInst_eq_grownInst {inst : chpl_priv_instance_t}
    (hWF : WF inst) (m : Nat) : rawGrownInst inst m = grownInst inst m := by
  unfold rawGrownInst grownInst
  rw [take_len_of_WF hWF]

lemma loop_two_ok_inv {v : Nat} {pid : Int} {s s' : RegState}
    (h : chpl_newPrivatizedClass v pid 2 s = RunOut.ok s') :
    newPrivStep v pid s = StepOut.done s' ∨
      ∃ t, newPrivStep v pid s = StepOut.retry t ∧
        newPrivStep v pid t = StepOut.done s' := by
  have h2 : (match newPrivStep v pid s with
    | StepOut.done u => RunOut.ok u
    | StepOut.retry u => chpl_newPrivatizedClass v pid 1 u
    | StepOut.fatal => RunOut.fatal) = RunOut.ok s' := h
  rcases hstep : newPrivStep v pid s with u | u | _ <;> rw [hstep] at h2
  · have h3 : RunOut.ok u = RunOut.ok s' := h2
    injection h3 with h4
    left
    rw [h4]
  · right
    have h3 : (match newPrivStep v pid u with
      | StepOut.done w => RunOut.ok w
      | StepOut.retry w => chpl_newPrivatizedClass v pid 0 w
      | StepOut.fatal => RunOut.fatal) = RunOut.ok s' := h2
    rcases hstep2 : newPrivStep v pid u with w | w | _ <;> rw [hstep2] at h3
    · have h4 : RunOut.ok w = RunOut.ok s' := h3
      injection h4 with h5
      exact ⟨u, rfl, by rw [hstep2, h5]⟩
    · exact RunOut.noConfusion (show RunOut.spin = RunOut.ok s' from h3)
    · exact RunOut.noConfusion h3
  · exact RunOut.noConfusion h2

lemma newPrivStep_done_inv {v : Nat} {pid : Int} {s s' : RegState}
    (h : newPrivStep v pid s = StepOut.done s') :
    toSizeT (blockIdxOf pid) < s.cur.len ∧
      ∃ inst', writeSlot s.cur pid (some v) = some inst' ∧
        s' = s.setCur inst' := by
  by_cases hA : s.cur.len ≤ toSizeT (blockIdxOf pid)
  · by_cases hB : toInt32 (blockIdxOf pid + 1 - (s.cur.len : Int)) ≤ 0
    · rw [newPrivStep_eq_retry_self hA hB] at h
      exact StepOut.noConfusion h
    · by_cases hC : blockIdxOf pid < 0 ∨ 2 ^ 31 ≤ blockIdxOf pid + 1 ∨
          blockIdxOf pid + 1 < (s.cur.len : Int)
      · rw [newPrivStep_eq_fatal_grow hA hB hC] at h
        exact StepOut.noConfusion h
      · rw [newPrivStep_eq_grow_raw hA hB hC] at h
        exact StepOut.noConfusion h
  · refine ⟨by omega, ?_⟩
    rcases hw : writeSlot s.cur pid (some v) with _ | inst'
    · rw [newPrivStep_eq_fatal_oob hA hw] at h
      exact StepOut.noConfusion h
    · rw [newPrivStep_store (by omega) hw] at h
      injection h with h4
      exact ⟨inst', rfl, h4.symm⟩

lemma newPrivStep_retry_inv {v : Nat} {pid : Int} {s t : RegState}
    (h : newPrivStep v pid s = StepOut.retry t) :
    t = s ∨
      (0 ≤ blockIdxOf pid ∧ blockIdxOf pid + 1 < 2 ^ 31 ∧
        (s.cur.len : Int) ≤ blockIdxOf pid + 1 ∧
        t = s.growTo (rawGrownInst s.cur (blockIdxOf pid + 1).toNat)) := by
  by_cases hA : s.cur.len ≤ toSizeT (blockIdxOf pid)
  · by_cases hB : toInt32 (blockIdxOf pid + 1 - (s.cur.len : Int)) ≤ 0
    · rw [newPrivStep_eq_retry_self hA hB] at h
      injection h with h4
      exact Or.inl h4.symm
    · by_cases hC : blockIdxOf pid < 0 ∨ 2 ^ 31 ≤ blockIdxOf pid + 1 ∨
          blockIdxOf pid + 1 < (s.cur.len : Int)
      · rw [newPrivStep_eq_fatal_grow hA hB hC] at h
        exact StepOut.noConfusion h
      · rw [newPrivStep_eq_grow_raw hA hB hC] at h
        injection h with h4
        push_neg at hC
        exact Or.inr ⟨hC.1, hC.2.1, hC.2.2, h4.symm⟩
  · rcases hw : writeSlot s.cur pid (some v) with _ | inst'
    · rw [newPrivStep_eq_fatal_oob hA hw] at h
      exact StepOut.noConfusion h
    · rw [newPrivStep_store (by omega) hw] at h
      exact StepOut.noConfusion h

/-- Reading any slot against the grown instance: values below the old
vector are shared, the rest is fresh null or still out of bounds. -/
lemma grown_frame {inst : chpl_priv_instance_t} {m : Nat}
    {p : Int} (hbip : 0 ≤ blockIdxOf p) (hsip : 0 ≤ slotIdxOf p)
    (hsltp : (slotIdxOf p).toNat < CHPL_PRIVATIZATION_BLOCK_SIZE) :
    readSlot (grownInst inst m) p = readSlot inst p ∨
      (readSlot inst p = none ∧
        readSlot (grownInst inst m) p = some none) := by
  have hblkapp : (grownInst inst m).blocks =
      inst.blocks ++ List.replicate (m - inst.len) chpl_priv_block_create :=
    rfl
  rcases lt_or_ge (blockIdxOf p).toNat inst.blocks.length with hlow | hhigh
  · exact Or.inl (readSlot_append_low hblkapp hbip hlow)
  · rcases lt_or_ge (blockIdxOf p).toNat
        (inst.blocks.length + (m - inst.len)) with hin | hout
    · exact Or.inr ⟨readSlot_oob hbip hhigh,
        readSlot_append_fresh hblkapp hbip hhigh hin hsip hsltp⟩
    · refine Or.inl ?_
      rw [readSlot_oob hbip hhigh]
      refine readSlot_oob hbip ?_
      rw [hblkapp, List.length_append, List.length_replicate]
      exact hout

lemma done_step_frame {v : Nat} {q : Int} {s s' : RegState}
    (hInv : RegInv s) (hq0 : 0 ≤ q) (hq1 : q < 2 ^ 41)
    (h : newPrivStep v q s = StepOut.done s') :
    RegInv s' ∧ s'.cur.len = s.cur.len ∧
      ∀ p : Int, 0 ≤ p → p < 2 ^ 41 → p ≠ q →
        chpl_getPrivatizedClass s' p = chpl_getPrivatizedClass s p := by
  obtain ⟨-, inst', hw, rfl⟩ := newPrivStep_done_inv h
  refine ⟨?_, ?_, ?_⟩
  · refine ⟨?_, ?_, ?_⟩ <;> rw [RegState.setCur_cur]
    · exact WF_writeSlot hInv.1 hw
    · rw [writeSlot_len hw]; exact hInv.2.1
    · rw [writeSlot_len hw]; exact hInv.2.2
  · rw [RegState.setCur_cur, writeSlot_len hw]
  · intro p hp0 hp1 hpq
    show readSlot (s.setCur inst').cur p = readSlot s.cur p
    rw [RegState.setCur_cur]
    exact readSlot_writeSlot_other hw (sane_decomp_ne hp0 hp1 hq0 hq1 hpq)

/-- Whenever a publish on a pid in the 32-bit-exact range DID complete
(with the writer path fatal near `INT_MAX` blocks, the source gives no
completion guarantee there), it preserved the invariant and left every
other such pid's readable value unchanged, up to slots newly covered by a
grow reading null. -/
lemma publish_completed_frame {v : Nat} {q : Int} {s s' : RegState}
    (hInv : RegInv s) (hq0 : 0 ≤ q) (hq1 : q < 2 ^ 41)
    (hok : chpl_newPrivatizedClass v q 2 s = RunOut.ok s') :
    RegInv s' ∧
      ∀ p : Int, 0 ≤ p → p < 2 ^ 41 → p ≠ q →
        chpl_getPrivatizedClass s' p = chpl_getPrivatizedClass s p ∨
          (chpl_getPrivatizedClass s p = none ∧
            chpl_getPrivatizedClass s' p = some none) := by
  rcases loop_two_ok_inv hok with hdone | ⟨t, hretry, hdone⟩
  · obtain ⟨hInv', -, hframe⟩ := done_step_frame hInv hq0 hq1 hdone
    exact ⟨hInv', fun p hp0 hp1 hpq => Or.inl (hframe p hp0 hp1 hpq)⟩
  · rcases newPrivStep_retry_inv hretry with rfl | ⟨hbi, hub, hlenle, rfl⟩
    · obtain ⟨hInv', -, hframe⟩ := done_step_frame hInv hq0 hq1 hdone
      exact ⟨hInv', fun p hp0 hp1 hpq => Or.inl (hframe p hp0 hp1 hpq)⟩
    · have heqG : rawGrownInst s.cur (blockIdxOf q + 1).toNat =
          grownInst s.cur (blockIdxOf q + 1).toNat :=
        rawGrownInst_eq_grownInst hInv.1 _
      have hcurt :
          (s.growTo (rawGrownInst s.cur (blockIdxOf q + 1).toNat)).cur =
            grownInst s.cur (blockIdxOf q + 1).toNat := by
        rw [RegState.growTo_cur, heqG]
      have hInvt :
          RegInv (s.growTo (rawGrownInst s.cur (blockIdxOf q + 1).toNat)) := by
        refine ⟨?_, ?_, ?_⟩ <;> rw [hcurt]
        · exact WF_grownInst hInv.1 (by omega)
        · rw [grownInst_len]; omega
        · rw [grownInst_len]; omega
      obtain ⟨hInv', -, hframe2⟩ := done_step_frame hInvt hq0 hq1 hdone
      refine ⟨hInv', ?_⟩
      intro p hp0 hp1 hpq
      have hbp := blockIdxOf_sane hp0 hp1
      have hsp := slotIdxOf_sane hp0
      have h1 : chpl_getPrivatizedClass
          (s.growTo (rawGrownInst s.cur (blockIdxOf q + 1).toNat)) p =
            readSlot (grownInst s.cur (blockIdxOf q + 1).toNat) p := by
        show readSlot _ p = _
        rw [hcurt]
      rw [hframe2 p hp0 hp1 hpq, h1]
      exact grown_frame (by rw [hbp]; omega) (by rw [hsp]; omega)
        (by rw [hsp]; unfold CHPL_PRIVATIZATION_BLOCK_SIZE; omega)

lemma okState_eq_some {r : RunOut} {s : RegState} :
    okState r = some s ↔ r = RunOut.ok s := by
  cases r <;> simp [okState]

lemma runOp_len_mono {s s' : RegState} {op : PrivOp}
    (h : runOp s op = some s') : s.cur.len ≤ s'.cur.len := by
  cases op with
  | publish v pid =>
    have h2 : okState (chpl_newPrivatizedClass v pid 2 s) = some s' := h
    rcases okState_eq_some.mp h2 with hr
    exact chpl_newPrivatizedClass_len_mono 2 s s' hr
  | clear pid =>
    have h2 : chpl_clearPrivatizedClass s pid = some s' := h
    unfold chpl_clearPrivatizedClass at h2
    rcases Option.map_eq_some'.mp h2 with ⟨inst', hw, heq⟩
    rw [← heq, RegState.setCur_cur, writeSlot_len hw]
  | get pid =>
    have h2 : (chpl_getPrivatizedClass s pid).map (fun _ => s) = some s' := h
    rcases Option.map_eq_some'.mp h2 with ⟨w, -, heq⟩
    rw [← heq]
  | capacity =>
    have h2 : some s = some s' := h
    injection h2 with h3
    rw [← h3]

lemma runOps_len_mono : ∀ (ops : List PrivOp) (s s' : RegState),
    runOps s ops = some s' → s.cur.len ≤ s'.cur.len := by
  intro ops
  induction ops with
  | nil =>
    intro s s' h
    have h2 : some s = some s' := h
    injection h2 with h3
    rw [← h3]
  | cons op rest ih =>
    intro s s' h
    have h2 : (runOp s op).bind (fun t => runOps t rest) = some s' := h
    rcases Option.bind_eq_some.mp h2 with ⟨t, h3, h4⟩
    exact le_trans (runOp_len_mono h3) (ih t s' h4)

/-- A completed API call on a sane pid preserves the invariant and
preserves "never published" slots (`p` sane, not the target of a publish):
the slot of `p` stays null or unallocated. -/
lemma runOp_unpublished {s s' : RegState} {op : PrivOp} {p : Int}
    (hInv : RegInv s) (hsane : op.sane) (hp0 : 0 ≤ p) (hp1 : p < 2 ^ 41)
    (hnp : ¬ op.publishesAt p) (h : runOp s op = some s')
    (hU : unpublishedSlot s p) : RegInv s' ∧ unpublishedSlot s' p := by
  cases op with
  | publish v q =>
    obtain ⟨hq0, hq1⟩ := hsane
    have hqp : q ≠ p := fun hqe => hnp hqe
    have h2 : okState (chpl_newPrivatizedClass v q 2 s) = some s' := h
    obtain ⟨hInv', hframe⟩ :=
      publish_completed_frame hInv hq0 hq1 (okState_eq_some.mp h2)
    refine ⟨hInv', ?_⟩
    rcases hframe p hp0 hp1 (fun hpe => hqp hpe.symm) with heq | ⟨-, hnew⟩
    · unfold unpublishedSlot at hU ⊢
      rw [heq]
      exact hU
    · exact Or.inl hnew
  | clear q =>
    have h2 : chpl_clearPrivatizedClass s q = some s' := h
    unfold chpl_clearPrivatizedClass at h2
    rcases Option.map_eq_some'.mp h2 with ⟨inst', hw, heq⟩
    obtain ⟨hq0, hq1⟩ := hsane
    have hInv' : RegInv s' := by
      rw [← heq]
      refine ⟨?_, ?_, ?_⟩ <;> rw [RegState.setCur_cur]
      · exact WF_writeSlot hInv.1 hw
      · rw [writeSlot_len hw]; exact hInv.2.1
      · rw [writeSlot_len hw]; exact hInv.2.2
    refine ⟨hInv', ?_⟩
    rcases eq_or_ne q p with hqp | hqp
    · left
      show readSlot s'.cur p = some none
      rw [← heq, RegState.setCur_cur, ← hqp]
      exact readSlot_writeSlot_self hw
    · have hother : readSlot s'.cur p = readSlot s.cur p := by
        rw [← heq, RegState.setCur_cur]
        exact readSlot_writeSlot_other hw (sane_decomp_ne hp0 hp1 hq0 hq1 hqp.symm)
      unfold unpublishedSlot at hU ⊢
      show readSlot s'.cur p = some none ∨ readSlot s'.cur p = none
      rw [hother]
      exact hU
  | get q =>
    have h2 : (chpl_getPrivatizedClass s q).map (fun _ => s) = some s' := h
    rcases Option.map_eq_some'.mp h2 with ⟨w, -, heq⟩
    rw [← heq]
    exact ⟨hInv, hU⟩
  | capacity =>
    have h2 : some s = some s' := h
    injection h2 with h3
    rw [← h3]
    exact ⟨hInv, hU⟩

lemma runOps_unpublished {p : Int} (hp0 : 0 ≤ p) (hp1 : p < 2 ^ 41) :
    ∀ (ops : List PrivOp) (s s' : RegState), RegInv s →
      (∀ op ∈ ops, op.sane) → (∀ op ∈ ops, ¬ op.publishesAt p) →
      runOps s ops = some s' → unpublishedSlot s p →
      RegInv s' ∧ unpublishedSlot s' p := by
  intro ops
  induction ops with
  | nil =>
    intro s s' hInv _ _ h hU
    have h2 : some s = some s' := h
    injection h2 with h3
    rw [← h3]
    exact ⟨hInv, hU⟩
  | cons op rest ih =>
    intro s s' hInv hsane hnp h hU
    have h2 : (runOp s op).bind (fun t => runOps t rest) = some s' := h
    rcases Option.bind_eq_some.mp h2 with ⟨t, h3, h4⟩
    obtain ⟨hInvt, hUt⟩ := runOp_unpublished hInv (hsane op (by simp))
      hp0 hp1 (hnp op (by simp)) h3 hU
    exact ih t s' hInvt (fun o ho => hsane o (by simp [ho]))
      (fun o ho => hnp o (by simp [ho])) h4 hUt

/-! ### The quiescence scan over status traces -/

lemma SpinExits_sound {f : Nat → Nat} {old t u : Nat}
    (h : SpinExits f old t u) : t ≤ u ∧ f u ≠ old := by
  induction h with
  | exit hne => exact ⟨le_refl _, hne⟩
  | wait heq htail ih => exact ⟨by omega, ih.2⟩

lemma ScanExits_sound {old : Nat} {fs : List (Nat → Nat)} {t w : Nat}
    (h : ScanExits old fs t w) :
    t ≤ w ∧ ∀ f ∈ fs, ∃ u, t ≤ u ∧ u ≤ w ∧ f u ≠ old := by
  induction h with
  | nil => exact ⟨le_refl _, by simp⟩
  | cons hspin hscan ih =>
    obtain ⟨htu, hne⟩ := SpinExits_sound hspin
    obtain ⟨huw, hrest⟩ := ih
    refine ⟨by omega, ?_⟩
    intro f hf
    rcases List.mem_cons.mp hf with rfl | hmem
    · exact ⟨_, htu, by omega, hne⟩
    · rcases hrest f hmem with ⟨u', hu1, hu2, hu3⟩
      exact ⟨u', by omega, hu2, hu3⟩

lemma ScanExits_const {old : Nat} :
    ∀ (statuses : List Nat), (∀ c ∈ statuses, c ≠ old) →
      ∀ t, ScanExits old (statuses.map fun c _ => c) t (t + statuses.length) := by
  intro statuses
  induction statuses with
  | nil => intro _ t; exact ScanExits.nil
  | cons c cs ih =>
    intro hall t
    have hc : c ≠ old := hall c (by simp)
    have hrest := ih (fun d hd => hall d (by simp [hd])) (t + 1)
    have hlen : t + (c :: cs).length = (t + 1) + cs.length := by
      simp [List.length_cons]; omega
    rw [List.map_cons, hlen]
    exact ScanExits.cons (SpinExits.exit hc) hrest

/-! ### The TLS roster walk of `init_tls` -/

/-- In the source's walk, a node whose compare-and-swap succeeds is skipped
by the `continue`, so the uncontended walk never adopts any node. -/
lemma init_tls_walk_adopts_none :
    ∀ roster : List tls_node_t, (init_tls_walk roster).2 = none := by
  intro roster
  induction roster with
  | nil => rfl
  | cons n rest ih =>
    by_cases hn : n.in_use
    · simp [init_tls_walk, hn, ih]
    · simp [init_tls_walk, cas_in_use, hn, ih]

/-- Consequently every call of `init_tls` allocates a fresh node and binds
it, regardless of how many reclaimable nodes the roster holds. -/
lemma init_tls_allocates (roster : List tls_node_t) :
    init_tls roster =
      { roster := { in_use := false, status := 255 } ::
          (init_tls_walk roster).1
      , adopted := 0
      , allocated := true } := by
  unfold init_tls
  have h := init_tls_walk_adopts_none roster
  rcases hw : init_tls_walk roster with ⟨r, o⟩
  rw [hw] at h
  simp only at h
  subst h
  rfl

/-! ## Claim theorems -/

/-- C1: the spec's reclaim-then-create algorithm says that a thread whose
compare-and-swap on a free node's `in_use` succeeds adopts that node and
allocates nothing. The code does the opposite: the condition
`if (curr->in_use || __sync_bool_compare_and_swap(...)) continue;` skips a
node exactly when the CAS succeeds, so on a roster holding one free node
the walk marks it `in_use = true` without adopting it, and a fresh node
(with `in_use` left `false` by `chpl_calloc`) is allocated, spliced at the
head and bound instead. The second conjunct shows reclamation is dead code:
every uncontended call allocates. -/
theorem C1_tls_reclaim_code_bug :
    (init_tls [{ in_use := false, status := 255 }] =
      { roster := [{ in_use := false, status := 255 },
                   { in_use := true, status := 255 }]
      , adopted := 0
      , allocated := true }) ∧
    ∀ roster : List tls_node_t, (init_tls roster).allocated = true := by
  constructor
  · decide
  · intro roster
    rw [init_tls_allocates]

/-- C3: the writer frees the old instance's blocks vector only after the
quiescence scan over the whole TLS roster has completed, and by then every
roster node was observed (strictly before the free) with a status different
from the old instance's index; moreover, over unchanging statuses, the
quiescence wait completes exactly when every node's status differs from the
old index. -/
theorem C3_writer_frees_only_after_quiescence :
    (∀ (old : Nat) (fs : List (Nat → Nat)) (tf : Nat),
        WriterFrees old fs tf →
        ∀ f ∈ fs, ∃ u, u < tf ∧ f u ≠ old) ∧
    (∀ (old : Nat) (statuses : List Nat),
        (∃ T, ScanExits old (statuses.map fun c _ => c) 0 T) ↔
          ∀ c ∈ statuses, c ≠ old) := by
  constructor
  · intro old fs tf hfree f hf
    cases hfree with
    | mk hscan =>
      obtain ⟨-, hall⟩ := ScanExits_sound hscan
      obtain ⟨u, -, hu2, hu3⟩ := hall f hf
      exact ⟨u, by omega, hu3⟩
  · intro old statuses
    constructor
    · rintro ⟨T, hscan⟩ c hc
      obtain ⟨-, hall⟩ := ScanExits_sound hscan
      obtain ⟨u, -, -, hne⟩ := hall _ (List.mem_map_of_mem _ hc)
      exact hne
    · intro hall
      exact ⟨statuses.length, by simpa using ScanExits_const statuses hall 0⟩

/-- C3 witness: a one-node roster whose status trace is constantly 255
(idle); the writer waiting on old index 0 frees at time 2, and the node was
observed off index 0 before that. -/
theorem C3_writer_frees_only_after_quiescence_witness :
    ∃ u, u < 2 ∧ (fun _ => 255 : Nat → Nat) u ≠ 0 :=
  C3_writer_frees_only_after_quiescence.1 0 [fun _ => 255] 2
    (WriterFrees.mk (ScanExits.cons (SpinExits.exit (by decide)) ScanExits.nil))
    (fun _ => 255) (by simp)

/-- C4 counterexample: the claim quantifies over every non-negative pid,
but at `pid = 2 ^ 41` the quotient `pid / 1024 = 2 ^ 31` wraps to
`-2 ^ 31` in the 32-bit `int blockIdx`; the comparison against the
`size_t` length then sends every iteration into the write path, where
`deltaBlocks` also wraps negative, so the loop body retries forever with
the state unchanged: `publish(2 ^ 41, v)` never returns, and no `get` can
observe the value. -/
theorem C4_publish_huge_pid_spins_counterexample :
    newPrivStep 7 (2 ^ 41) chpl_privatization_init =
        StepOut.retry chpl_privatization_init ∧
    ∀ fuel, chpl_newPrivatizedClass 7 (2 ^ 41) fuel chpl_privatization_init =
      RunOut.spin := by
  have hstep : newPrivStep 7 (2 ^ 41) chpl_privatization_init =
      StepOut.retry chpl_privatization_init := by decide
  refine ⟨hstep, ?_⟩
  intro fuel
  induction fuel with
  | zero => rfl
  | succ n ih =>
    show (match newPrivStep 7 (2 ^ 41) chpl_privatization_init with
      | StepOut.done s' => RunOut.ok s'
      | StepOut.retry s' => chpl_newPrivatizedClass 7 (2 ^ 41) n s'
      | StepOut.fatal => RunOut.fatal) = RunOut.spin
    rw [hstep]
    exact ih

/-- C4 (amended to pids below `2 ^ 41 - 1024`, where both the 32-bit
`blockIdx` and the `int` sum `blockIdx + 1` used by the grow are exact —
at pids in `[2 ^ 41 - 1024, 2 ^ 41)` the grow computes `INT_MAX + 1`,
signed overflow, and cannot complete): in a single-threaded execution,
from any state satisfying the registry invariant (as established by
`init`), `publish(p, v)` returns within two loop iterations — including
when it grows — and an immediately following `get(p)` returns `v`. -/
theorem C4_publish_then_get (s : RegState) (v : Nat) (pid : Int)
    (hInv : RegInv s) (h0 : 0 ≤ pid) (h1 : pid < 2 ^ 41 - 1024) :
    ∃ s', chpl_newPrivatizedClass v pid 2 s = RunOut.ok s' ∧
      chpl_getPrivatizedClass s' pid = some (some v) := by
  obtain ⟨s', hr, -, hself, -⟩ := publish_ok v hInv h0 h1
  exact ⟨s', hr, hself⟩

/-- C4 witness: publishing value 7 at pid 1024 from the freshly initialised
registry (this forces a grow) and reading it back. -/
theorem C4_publish_then_get_witness :
    ∃ s', chpl_newPrivatizedClass 7 1024 2 chpl_privatization_init =
        RunOut.ok s' ∧
      chpl_getPrivatizedClass s' 1024 = some (some 7) :=
  C4_publish_then_get chpl_privatization_init 7 1024 (by decide) (by decide)
    (by decide)

/-- C8 counterexample: the claim asserts the exact decomposition
`blockIdx = pid / 1024` over the full signed 64-bit pid range, but
`int blockIdx` is 32 bits: at `pid = 2 ^ 41` (well inside `int64_t`) the
exact quotient is `2 ^ 31`, which does not fit, and the narrowing stored in
`blockIdx` is `-2 ^ 31`. -/
theorem C8_blockIdx_narrowing_counterexample :
    blockIdxOf (2 ^ 41) ≠ specBlockIdx (2 ^ 41) ∧
    blockIdxOf (2 ^ 41) = -2 ^ 31 ∧ specBlockIdx (2 ^ 41) = 2 ^ 31 ∧
    (2 ^ 41 : Int) < 2 ^ 63 := by decide

/-- C8 (amended to `0 ≤ pid < 2 ^ 41`): in that range the `int` narrowing
is the identity, so the `blockIdx` and `idx` computed by publish, get and
clear (all three use `blockIdxOf` / `slotIdxOf`) agree with the spec's
exact decomposition `pid / 1024` and `pid % 1024`. -/
theorem C8_decomposition_exact (pid : Int) (h0 : 0 ≤ pid)
    (h1 : pid < 2 ^ 41) :
    blockIdxOf pid = specBlockIdx pid ∧ slotIdxOf pid = specSlotIdx pid ∧
    blockIdxOf pid = pid / 1024 ∧ slotIdxOf pid = pid % 1024 := by
  have hb := blockIdxOf_sane h0 h1
  have hs := slotIdxOf_sane h0
  refine ⟨?_, ?_, hb, hs⟩
  · rw [hb]
    unfold specBlockIdx CHPL_PRIVATIZATION_BLOCK_SIZE
    rw [show ((1024 : Nat) : Int) = 1024 by norm_num,
      Int.tdiv_eq_ediv h0 (by norm_num)]
  · rw [hs]
    unfold specSlotIdx CHPL_PRIVATIZATION_BLOCK_SIZE
    rw [show ((1024 : Nat) : Int) = 1024 by norm_num,
      Int.tmod_eq_emod h0 (by norm_num)]

/-- C8 witness: the decomposition of pid 2048. -/
theorem C8_decomposition_exact_witness :
    blockIdxOf 2048 = specBlockIdx 2048 ∧
    slotIdxOf 2048 = specSlotIdx 2048 ∧
    blockIdxOf 2048 = 2048 / 1024 ∧ slotIdxOf 2048 = 2048 % 1024 :=
  C8_decomposition_exact 2048 (by decide) (by decide)

/-- C2 counterexample: `chpl_getPrivatizedClass` performs no bounds check,
so for a never-published pid beyond the grown capacity the slot read is NOT
well-defined: straight after `init` (one block, `len = 1`), `get(1024)`
indexes `blocks[1]` of a one-entry vector — an out-of-bounds read (modelled
`none`), not a null result. -/
theorem C2_get_beyond_capacity_counterexample :
    chpl_getPrivatizedClass chpl_privatization_init 1024 ≠ some none ∧
    chpl_getPrivatizedClass chpl_privatization_init 1024 = none := by decide

/-- C2 (amended): for a pid `p < 2 ^ 41` never published over any completed
single-threaded call sequence from `init` (all pids in range), `get(p)`
returns null when `p / 1024` is below the current length, and performs an
out-of-bounds read (not a null result) when `p / 1024` is at or beyond the
current length. -/
theorem C2_get_unpublished_null (ops : List PrivOp) (p : Int) (s : RegState)
    (hsane : ∀ op ∈ ops, op.sane)
    (hp0 : 0 ≤ p) (hp1 : p < 2 ^ 41)
    (hnp : ∀ op ∈ ops, ¬ op.publishesAt p)
    (hrun : runOps chpl_privatization_init ops = some s) :
    ((p / 1024).toNat < s.cur.len → chpl_getPrivatizedClass s p = some none) ∧
    (s.cur.len ≤ (p / 1024).toNat → chpl_getPrivatizedClass s p = none) := by
  have hb := blockIdxOf_sane hp0 hp1
  have hsl := slotIdxOf_sane hp0
  have hbi : 0 ≤ blockIdxOf p := by rw [hb]; omega
  have hsi : 0 ≤ slotIdxOf p := by rw [hsl]; omega
  have hbn : (blockIdxOf p).toNat = (p / 1024).toNat := by rw [hb]
  have hslt : (slotIdxOf p).toNat < CHPL_PRIVATIZATION_BLOCK_SIZE := by
    rw [hsl]; unfold CHPL_PRIVATIZATION_BLOCK_SIZE; omega
  have hU0 : unpublishedSlot chpl_privatization_init p := by
    rcases Nat.lt_or_ge (blockIdxOf p).toNat 1 with hlow | hhigh
    · left
      exact @readSlot_append_fresh chpl_privatization_init.cur
        { blocks := [], len := 0 } 1 rfl p hbi (by simp)
        (by simpa using hlow) hsi hslt
    · right
      refine readSlot_oob hbi ?_
      have hL : chpl_privatization_init.cur.blocks.length = 1 := rfl
      omega
  obtain ⟨hInv, hU⟩ := runOps_unpublished hp0 hp1 ops
    chpl_privatization_init s (by decide) hsane hnp hrun hU0
  constructor
  · intro hin
    obtain ⟨w, hr⟩ := readSlot_isSome hInv.1 hbi (by omega) hsi hslt
    have hr' : chpl_getPrivatizedClass s p = some w := hr
    rcases hU with h1 | h1
    · exact h1
    · rw [h1] at hr'
      exact Option.noConfusion hr'
  · intro hout
    exact readSlot_oob hbi (by rw [hInv.1.1]; omega)

/-- C2 witness: after publishing at pid 0, pid 5 (never published, in
bounds) reads null. -/
theorem C2_get_unpublished_null_witness :
    (runOps chpl_privatization_init [PrivOp.publish 7 0]).map
        (fun s => chpl_getPrivatizedClass s 5) = some (some none) := by
  rcases hx : runOps chpl_privatization_init [PrivOp.publish 7 0] with _ | s
  · exact absurd hx (by decide)
  · rw [Option.map_some']
    have h := C2_get_unpublished_null [PrivOp.publish 7 0] 5 s (by decide)
      (by decide) (by decide) (by decide) hx
    have hlen := runOps_len_mono [PrivOp.publish 7 0]
      chpl_privatization_init s hx
    have h1 : (1 : Nat) ≤ s.cur.len := le_trans (by decide) hlen
    have h5 : ((5 : Int) / 1024).toNat = 0 := by decide
    rw [h.1 (by omega)]

/-- C5 counterexample: the 32-bit narrowing of `blockIdx` makes distinct
non-negative pids alias the same slot: pid `2 ^ 43` has
`blockIdx = toInt32(2 ^ 33) = 0` and `idx = 0`, the slot of pid 0. So
`publish(0, 33)` changes the value `get(2 ^ 43)` returns (null before,
33 after), although `2 ^ 43 ≠ 0`. -/
theorem C5_publish_aliases_counterexample :
    chpl_getPrivatizedClass chpl_privatization_init (2 ^ 43) = some none ∧
    (okState (chpl_newPrivatizedClass 33 0 2 chpl_privatization_init)).map
        (fun s => chpl_getPrivatizedClass s (2 ^ 43)) =
      some (some (some 33)) := by decide

/-- C5 (amended: the published pid `a` below `2 ^ 41 - 1024`, so that the
grow arithmetic `blockIdx + 1` stays inside `int` and the publish can
complete; the observed pid `b` anywhere below `2 ^ 41`): `publish(a, x)`
leaves the value readable at `b ≠ a` unchanged; when the publish grows the
instance, a slot of `b` that was beyond the old capacity (out of bounds
before) either stays out of bounds or becomes a fresh null slot. -/
theorem C5_publish_frame (s : RegState) (v : Nat) (a b : Int)
    (hInv : RegInv s) (ha0 : 0 ≤ a) (ha1 : a < 2 ^ 41 - 1024)
    (hb0 : 0 ≤ b) (hb1 : b < 2 ^ 41) (hne : b ≠ a) :
    ∃ s', chpl_newPrivatizedClass v a 2 s = RunOut.ok s' ∧
      (chpl_getPrivatizedClass s' b = chpl_getPrivatizedClass s b ∨
        (chpl_getPrivatizedClass s b = none ∧
          chpl_getPrivatizedClass s' b = some none)) := by
  obtain ⟨s', hr, -, -, hframe, -⟩ := publish_ok v hInv ha0 ha1
  exact ⟨s', hr, hframe b hb0 hb1 hne⟩

/-- C5 witness: publishing 9 at pid 0 from the initial state leaves pid 1
unchanged (or freshly null). -/
theorem C5_publish_frame_witness :
    ∃ s', chpl_newPrivatizedClass 9 0 2 chpl_privatization_init =
        RunOut.ok s' ∧
      (chpl_getPrivatizedClass s' 1 =
          chpl_getPrivatizedClass chpl_privatization_init 1 ∨
        (chpl_getPrivatizedClass chpl_privatization_init 1 = none ∧
          chpl_getPrivatizedClass s' 1 = some none)) :=
  C5_publish_frame chpl_privatization_init 9 0 1 (by decide) (by decide)
    (by decide) (by decide) (by decide) (by decide)

/-- C6: over any completed sequence of publish / clear / get / capacity
calls after `init` (and any continuation), `capacity()` is non-decreasing;
and a loop iteration that retries with a changed state — i.e. an actual
grow, which rebuilds the other instance and swaps — strictly increases the
current length. -/
theorem C6_capacity_monotone :
    (∀ (ops : List PrivOp) (s : RegState),
        runOps chpl_privatization_init ops = some s →
        ∀ (more : List PrivOp) (s' : RegState), runOps s more = some s' →
          chpl_numPrivatizedClasses s ≤ chpl_numPrivatizedClasses s') ∧
    (∀ (v : Nat) (pid : Int) (s s' : RegState),
        newPrivStep v pid s = StepOut.retry s' → s' ≠ s →
        s.cur.len < s'.cur.len) := by
  constructor
  · intro ops s hs more s' hs'
    unfold chpl_numPrivatizedClasses
    exact Nat.mul_le_mul_right _ (runOps_len_mono more s s' hs')
  · intro v pid s s' hstep hne
    by_cases hA : s.cur.len ≤ toSizeT (blockIdxOf pid)
    · by_cases hB : toInt32 (blockIdxOf pid + 1 - (s.cur.len : Int)) ≤ 0
      · rw [newPrivStep_eq_retry_self hA hB] at hstep
        injection hstep with h'
        exact absurd h'.symm hne
      · by_cases hC : blockIdxOf pid < 0 ∨ 2 ^ 31 ≤ blockIdxOf pid + 1 ∨
            blockIdxOf pid + 1 < (s.cur.len : Int)
        · rw [newPrivStep_eq_fatal_grow hA hB hC] at hstep
          exact StepOut.noConfusion hstep
        · rw [newPrivStep_eq_grow_raw hA hB hC] at hstep
          injection hstep with h'
          rw [← h', RegState.growTo_cur]
          show s.cur.len < (blockIdxOf pid + 1).toNat
          have hge : 0 ≤ blockIdxOf pid := by
            push_neg at hC
            exact hC.1
          have hub := blockIdxOf_lt pid
          have hsz := toSizeT_of_nonneg hge (by omega)
          omega
    · rcases hw : writeSlot s.cur pid (some v) with _ | inst'
      · rw [newPrivStep_eq_fatal_oob hA hw] at hstep
        exact StepOut.noConfusion hstep
      · rw [newPrivStep_store (by omega) hw] at hstep
        exact StepOut.noConfusion hstep

/-- C6 witness: a publish at pid 1024 (which grows) does not decrease the
capacity reported after it. -/
theorem C6_capacity_monotone_witness :
    chpl_numPrivatizedClasses chpl_privatization_init ≤
      chpl_numPrivatizedClasses
        ((runOps chpl_privatization_init [PrivOp.publish 7 1024]).getD
          chpl_privatization_init) := by
  rcases hx : runOps chpl_privatization_init [PrivOp.publish 7 1024]
    with _ | s'
  · exact absurd hx (by decide)
  · exact C6_capacity_monotone.1 [] chpl_privatization_init rfl
      [PrivOp.publish 7 1024] s' hx

/-- C7: if, inside the write critical section, the requested block index is
already covered (`deltaBlocks <= 0`), the writer retries with both
instances unmodified (the step returns the state unchanged); and
concretely, `publish(1024, v)` from the initial one-block state does not
finish without a grow iteration (fuel 1 spins) but finishes with exactly
one grow plus one store (fuel 2, length 2), after which
`publish(1023, w)` completes in a single storing iteration (fuel 1, no
grow) with the length unchanged. -/
theorem C7_growth_idempotent :
    (∀ (s : RegState) (v : Nat) (pid : Int),
        s.cur.len ≤ toSizeT (blockIdxOf pid) →
        toInt32 (blockIdxOf pid + 1 - (s.cur.len : Int)) ≤ 0 →
        newPrivStep v pid s = StepOut.retry s) ∧
    chpl_newPrivatizedClass 7 1024 1 chpl_privatization_init =
      RunOut.spin ∧
    (okState (chpl_newPrivatizedClass 7 1024 2 chpl_privatization_init)).map
        (fun s => s.cur.len) = some 2 ∧
    ((okState (chpl_newPrivatizedClass 7 1024 2 chpl_privatization_init)).bind
        (fun s => okState (chpl_newPrivatizedClass 8 1023 1 s))).map
        (fun s => s.cur.len) = some 2 := by
  refine ⟨?_, by decide, by decide, by decide⟩
  intro s v pid hA hB
  exact newPrivStep_eq_retry_self hA hB

/-- C7 witness: at pid `2 ^ 41` the wrapped `deltaBlocks` is non-positive,
so the writer path leaves the initial state untouched and retries. -/
theorem C7_growth_idempotent_witness :
    newPrivStep 5 (2 ^ 41) chpl_privatization_init =
      StepOut.retry chpl_privatization_init :=
  C7_growth_idempotent.1 chpl_privatization_init 5 (2 ^ 41) (by decide)
    (by decide)

/-- C9 counterexample: `chpl_clearPrivatizedClass` performs no bounds
check, so clearing a never-published pid beyond the capacity is not a
"no-op store of null": straight after `init`, `clear(1024)` writes through
`blocks[1]` of a one-entry vector — an out-of-bounds store (modelled
`none`), i.e. the call does not complete normally at all. -/
theorem C9_clear_beyond_capacity_counterexample :
    chpl_clearPrivatizedClass chpl_privatization_init 1024 = none := by
  decide

/-- C9 (amended to pids below `2 ^ 41` whose block is allocated): after
`clear(p)`, `get(p)` returns null; the clear is a store of null that leaves
the value at every other such pid unchanged — in particular clearing a
never-published (hence already null) slot is a no-op. -/
theorem C9_clear_then_get (s : RegState) (p : Int) (hInv : RegInv s)
    (hp0 : 0 ≤ p) (hp1 : p < 2 ^ 41)
    (hin : (p / 1024).toNat < s.cur.len) :
    ∃ s', chpl_clearPrivatizedClass s p = some s' ∧
      chpl_getPrivatizedClass s' p = some none ∧
      (∀ q : Int, 0 ≤ q → q < 2 ^ 41 → q ≠ p →
        chpl_getPrivatizedClass s' q = chpl_getPrivatizedClass s q) := by
  obtain ⟨s', h1, -, h2, h3, -⟩ := clear_ok hInv hp0 hp1 hin
  exact ⟨s', h1, h2, h3⟩

/-- C9 witness: clearing pid 5 in the initial state yields a state where
pid 5 reads null. -/
theorem C9_clear_then_get_witness :
    ∃ s', chpl_clearPrivatizedClass chpl_privatization_init 5 = some s' ∧
      chpl_getPrivatizedClass s' 5 = some none ∧
      (∀ q : Int, 0 ≤ q → q < 2 ^ 41 → q ≠ 5 →
        chpl_getPrivatizedClass s' q =
          chpl_getPrivatizedClass chpl_privatization_init q) :=
  C9_clear_then_get chpl_privatization_init 5 (by decide) (by decide)
    (by decide) (by decide)

/-- C10 counterexample: the claim quantifies over every pid whose publish
triggers a grow, but at `p = 2 ^ 42 + 1024` the narrowed
`blockIdx = toInt32(2 ^ 32 + 1) = 1` triggers a grow from the initial
state, and the new capacity is `2 * 1024 = 2048`, not
`(p / 1024 + 1) * 1024`. -/
theorem C10_grow_len_counterexample :
    (okState (chpl_newPrivatizedClass 7 (2 ^ 42 + 1024) 2
        chpl_privatization_init)).map
        (fun s => chpl_numPrivatizedClasses s) = some 2048 ∧
    (((2 ^ 42 + 1024 : Int) / 1024).toNat + 1) *
        CHPL_PRIVATIZATION_BLOCK_SIZE ≠ 2048 := by decide

/-- C10 (amended to pids below `2 ^ 41 - 1024`, keeping the grow's
`blockIdx + 1` inside `int`; at pids in `[2 ^ 41 - 1024, 2 ^ 41)` the grow
computes `INT_MAX + 1` — signed overflow — and cannot complete): when
`publish(p, v)` finds its block index at or beyond the current length (the
grow trigger), the grow sets the new instance's length to exactly
`p / 1024 + 1` — minimal growth to cover `p` — and the publish completes
with `capacity() = (p / 1024 + 1) * BLOCK_SIZE`. -/
theorem C10_grow_minimal (s : RegState) (v : Nat) (pid : Int)
    (hInv : RegInv s) (h0 : 0 ≤ pid) (h1 : pid < 2 ^ 41 - 1024)
    (htrig : s.cur.len ≤ toSizeT (blockIdxOf pid)) :
    ∃ s', chpl_newPrivatizedClass v pid 2 s = RunOut.ok s' ∧
      s'.cur.len = (pid / 1024).toNat + 1 ∧
      chpl_numPrivatizedClasses s' =
        ((pid / 1024).toNat + 1) * CHPL_PRIVATIZATION_BLOCK_SIZE := by
  obtain ⟨s', hr, -, -, -, -, hgrow, -⟩ := publish_ok v hInv h0 h1
  have hlen := hgrow htrig
  refine ⟨s', hr, hlen, ?_⟩
  unfold chpl_numPrivatizedClasses
  rw [hlen]

/-- C10 witness: publishing at pid 4096 from the initial state grows the
length to exactly 5 blocks. -/
theorem C10_grow_minimal_witness :
    ∃ s', chpl_newPrivatizedClass 3 4096 2 chpl_privatization_init =
        RunOut.ok s' ∧
      s'.cur.len = ((4096 : Int) / 1024).toNat + 1 ∧
      chpl_numPrivatizedClasses s' =
        (((4096 : Int) / 1024).toNat + 1) * CHPL_PRIVATIZATION_BLOCK_SIZE :=
  C10_grow_minimal chpl_privatization_init 3 4096 (by decide) (by decide)
    (by decide) (by decide)
